import Mathlib

/-!
Verification of the sprout core against its specification.

This file gives a shallow embedding of the core of the repository:

* `regstore.cpp` — the registration store (`RegStore`): AoR / Binding data
  model, binding expiry, native-int binary serialization and
  deserialization, and the read/write paths over the CAS key-value store.
* `thread_dispatcher.cpp` — the dispatcher: the receive hook
  `threads_on_rx_msg` and the worker thread's exception barrier.
* The response-consolidation rule of the service transaction context
  (declared in `appserver.h`).

C++ `std::string` values are modelled as lists of byte values, C++ `int`
as `Int` (with explicit two's-complement encoding where the code writes
raw bytes), and `std::map` as an association list kept strictly sorted by
the lexicographic key order that `std::map<std::string, _>` uses.
-/

/-- A C++ `std::string` viewed as a byte container (it may hold NUL bytes). -/
abbrev ByteStr := List Nat

/-- One registration binding (`RegStore::AoR::Binding`): contact URI,
Call-ID, CSeq, expiry time, priority, ordered parameter pairs and ordered
Path header values.  Field layout follows the members read and written by
`regstore.cpp` (`_uri`, `_cid`, `_cseq`, `_expires`, `_priority`,
`_params`, `_path_headers`). -/
structure Binding where
  uri : ByteStr
  cid : ByteStr
  cseq : Int
  expires : Int
  priority : Int
  params : List (ByteStr × ByteStr)
  path_headers : List ByteStr
deriving DecidableEq, Repr

/-- The binding created by `new Binding` in `AoR::get_binding`: per the
source comment it is "completely empty, even the Contact URI field". -/
def emptyBinding : Binding :=
  { uri := [], cid := [], cseq := 0, expires := 0, priority := 0,
    params := [], path_headers := [] }

/-- An address-of-record (`RegStore::AoR`): the binding map keyed by
binding id, plus the CAS token (`_cas`, a `uint64_t`, 0 for a fresh
record).  The `std::map` is modelled as an association list that the map
operations keep strictly sorted by key. -/
structure AoR where
  bindings : List (ByteStr × Binding)
  cas : Nat
deriving DecidableEq, Repr

/-- Lexicographic byte comparison: the strict order `std::map` uses for
`std::string` keys. -/
def lexLt : ByteStr → ByteStr → Bool
  | [], [] => false
  | [], _ :: _ => true
  | _ :: _, [] => false
  | a :: as, b :: bs => if a < b then true else if b < a then false else lexLt as bs

/-- `std::map::find` on the association list. -/
def mapFind (k : ByteStr) : List (ByteStr × Binding) → Option Binding
  | [] => none
  | p :: rest => if p.1 = k then some p.2 else mapFind k rest

/-- Ordered insertion in the association list, replacing the value when the
key is already present.  This models both `std::map::insert` of a fresh key
and mutation through the pointer `std::map::find` returned. -/
def mapInsert (k : ByteStr) (v : Binding) : List (ByteStr × Binding) → List (ByteStr × Binding)
  | [] => [(k, v)]
  | p :: rest =>
    if lexLt k p.1 then (k, v) :: p :: rest
    else if lexLt p.1 k then p :: mapInsert k v rest
    else (k, v) :: rest

/-- `RegStore::AoR::get_binding`: return the binding stored under
`binding_id`, creating (and inserting) a completely empty one when absent.
The C++ returns a pointer into the map; the model returns the binding
value together with the possibly-updated AoR. -/
def AoR.get_binding (a : AoR) (binding_id : ByteStr) : Binding × AoR :=
  match mapFind binding_id a.bindings with
  | some b => (b, a)
  | none =>
    (emptyBinding, { a with bindings := mapInsert binding_id emptyBinding a.bindings })

/-- The loop body of `RegStore::expire_bindings`: walk the bindings in map
order; delete a binding when `expires <= now`, otherwise raise the running
`max_expires` when the binding's expiry exceeds it. -/
def expireLoop (now : Int) (maxExp : Int) :
    List (ByteStr × Binding) → List (ByteStr × Binding) × Int
  | [] => ([], maxExp)
  | p :: rest =>
    if p.2.expires ≤ now then expireLoop now maxExp rest
    else
      let m := if maxExp < p.2.expires then p.2.expires else maxExp
      let r := expireLoop now m rest
      (p :: r.1, r.2)

/-- `RegStore::expire_bindings`: removes the expired bindings in place and
returns the latest outstanding expiry time, or `now` if none. -/
def expire_bindings (aor_data : AoR) (now : Int) : AoR × Int :=
  let r := expireLoop now now aor_data.bindings
  ({ aor_data with bindings := r.1 }, r.2)

/-- Four little-endian bytes of a C++ `int` (two's complement, as the raw
`ostream::write((const char *)&x, sizeof(int))` emits on the host). -/
def intToBytes (i : Int) : List Nat :=
  let n := (i % 4294967296).toNat
  [n % 256, n / 256 % 256, n / 65536 % 256, n / 16777216 % 256]

/-- Reassemble a C++ `int` from four raw bytes (two's complement). -/
def bytesToInt (bs : List Nat) : Int :=
  match bs with
  | [b0, b1, b2, b3] =>
    let n := b0 % 256 + 256 * (b1 % 256) + 65536 * (b2 % 256) + 16777216 * (b3 % 256)
    if n < 2147483648 then (n : Int) else (n : Int) - 4294967296
  | _ => 0

/-- Serialization of one binding's parameter list: for each pair, the name
then the value, each NUL-terminated. -/
def serializeParams (ps : List (ByteStr × ByteStr)) : List Nat :=
  (ps.map (fun p => p.1 ++ [0] ++ p.2 ++ [0])).flatten

/-- Serialization of one binding's path-header list: each path string
NUL-terminated. -/
def serializePaths (ls : List ByteStr) : List Nat :=
  (ls.map (fun s => s ++ [0])).flatten

/-- Serialization of the fixed and variable fields of one binding, after
its id: URI, Call-ID (NUL-terminated), CSeq, expires, priority (raw ints),
parameter count and pairs, path count and NUL-terminated path strings.
Follows the writer loop of `RegStore::serialize_aor`. -/
def serializeBindingBody (b : Binding) : List Nat :=
  b.uri ++ [0] ++ b.cid ++ [0] ++
  intToBytes b.cseq ++ intToBytes b.expires ++ intToBytes b.priority ++
  intToBytes (b.params.length : Int) ++ serializeParams b.params ++
  intToBytes (b.path_headers.length : Int) ++ serializePaths b.path_headers

/-- One serialized map entry: NUL-terminated binding id, then the body. -/
def entryBytes (p : ByteStr × Binding) : List Nat :=
  p.1 ++ [0] ++ serializeBindingBody p.2

/-- `RegStore::serialize_aor`: raw int count of bindings, then each entry
in map order.  The CAS token is not serialized. -/
def serialize_aor (aor_data : AoR) : List Nat :=
  intToBytes (aor_data.bindings.length : Int) ++ (aor_data.bindings.map entryBytes).flatten

/-- `std::istringstream` state: remaining bytes plus a good/failed flag
(`ok = false` models eofbit or failbit being set, after which every
sentry fails and subsequent extractions do nothing). -/
structure InStream where
  data : List Nat
  ok : Bool
deriving DecidableEq, Repr

/-- Split the stream at the first NUL: `some (before, after)` when a NUL
exists, `none` otherwise. -/
def splitAtNul : List Nat → Option (List Nat × List Nat)
  | [] => none
  | b :: rest =>
    if b = 0 then some ([], rest)
    else
      match splitAtNul rest with
      | some (pre, post) => some (b :: pre, post)
      | none => none

/-- `std::getline(iss, target, '\0')`: on a failed stream the target keeps
its previous value; otherwise the bytes up to the first NUL are extracted
(the NUL is consumed and discarded); if no NUL is found the rest of the
stream is extracted and eofbit/failbit are set. -/
def inGetline (st : InStream) (old : ByteStr) : ByteStr × InStream :=
  if st.ok then
    match splitAtNul st.data with
    | some (pre, post) => (pre, { data := post, ok := true })
    | none => (st.data, { data := [], ok := false })
  else (old, st)

/-- `iss.read((char *)&x, sizeof(int))`: on a failed stream `x` keeps its
previous value; on a short stream the bytes that are present overwrite the
leading bytes of `x`'s representation and the stream fails. -/
def inRead4 (st : InStream) (old : Int) : Int × InStream :=
  if st.ok then
    if 4 ≤ st.data.length then
      (bytesToInt (st.data.take 4), { data := st.data.drop 4, ok := true })
    else
      (bytesToInt (st.data ++ (intToBytes old).drop st.data.length),
       { data := [], ok := false })
  else (old, st)

/-- `std::list::resize`: truncate or pad with default elements. -/
def listResize (l : List α) (n : Nat) (d : α) : List α :=
  if n ≤ l.length then l.take n else l ++ List.replicate (n - l.length) d

/-- The parameter-reading loop of `RegStore::deserialize_aor`: a getline
for the name and one for the value of each element of the resized list. -/
def readParamsLoop : List (ByteStr × ByteStr) → InStream → List (ByteStr × ByteStr) × InStream
  | [], st => ([], st)
  | p :: rest, st =>
    let r1 := inGetline st p.1
    let r2 := inGetline r1.2 p.2
    let r3 := readParamsLoop rest r2.2
    ((r1.1, r2.1) :: r3.1, r3.2)

/-- The path-header-reading loop of `RegStore::deserialize_aor`. -/
def readPathsLoop : List ByteStr → InStream → List ByteStr × InStream
  | [], st => ([], st)
  | p :: rest, st =>
    let r1 := inGetline st p
    let r2 := readPathsLoop rest r1.2
    (r1.1 :: r2.1, r2.2)

/-- The per-binding part of `RegStore::deserialize_aor`, reading into the
binding returned by `get_binding`.  `junk` models the indeterminate value
of the uninitialized local `int num_params` when the stream fails before
it is fully overwritten (`num_paths` is initialized to 0 in the source).
Negative counts leave the list resize at zero elements. -/
def deserializeBindingInto (junk : Int) (b : Binding) (st : InStream) : Binding × InStream :=
  let rUri := inGetline st b.uri
  let rCid := inGetline rUri.2 b.cid
  let rCseq := inRead4 rCid.2 b.cseq
  let rExp := inRead4 rCseq.2 b.expires
  let rPri := inRead4 rExp.2 b.priority
  let rNumParams := inRead4 rPri.2 junk
  let params0 := listResize b.params rNumParams.1.toNat ([], [])
  let rParams := readParamsLoop params0 rNumParams.2
  let rNumPaths := inRead4 rParams.2 0
  let paths0 := listResize b.path_headers rNumPaths.1.toNat []
  let rPaths := readPathsLoop paths0 rNumPaths.2
  ({ uri := rUri.1, cid := rCid.1, cseq := rCseq.1, expires := rExp.1,
     priority := rPri.1, params := rParams.1, path_headers := rPaths.1 },
   rPaths.2)

/-- The binding loop of `RegStore::deserialize_aor`: for each of the
counted bindings, getline the id, fetch-or-create the binding with
`get_binding`, and read its fields through that binding. -/
def deserLoop (junk : Int) : Nat → InStream → AoR → AoR
  | 0, _, a => a
  | Nat.succ n, st, a =>
    let rId := inGetline st []
    let gb := a.get_binding rId.1
    let rB := deserializeBindingInto junk gb.1 rId.2
    let a2 := { gb.2 with bindings := mapInsert rId.1 rB.1 gb.2.bindings }
    deserLoop junk n rB.2 a2

/-- `RegStore::deserialize_aor`: read the binding count (into the
uninitialized local `int num_bindings`, modelled by `junk`), then parse
that many bindings into a fresh AoR (CAS 0).  A negative count runs the
loop zero times, as in the source.  No stream-state check is ever made. -/
def deserialize_aor (junk : Int) (s : List Nat) : AoR :=
  let st0 : InStream := { data := s, ok := true }
  let rNum := inRead4 st0 junk
  deserLoop junk rNum.1.toNat rNum.2 { bindings := [], cas := 0 }

/-- `Store::Status` values used by `regstore.cpp` (OK / NOT_FOUND / ERROR
for reads; OK / DATA_CONTENTION / ERROR for CAS writes). -/
inductive StoreStatus
  | OK
  | NOT_FOUND
  | ERROR
  | DATA_CONTENTION
deriving DecidableEq, Repr

/-- `RegStore::get_aor_data`: issue `get_data("reg", aor_id)`; on OK,
deserialize and stamp the returned CAS; on NOT_FOUND, a fresh empty AoR
(CAS 0); otherwise the NULL sentinel (`none`).  The store is passed as a
function returning the status with the out-parameters `data` and `cas`. -/
def get_aor_data (junk : Int) (get_data : String → String → StoreStatus × List Nat × Nat)
    (aor_id : String) : Option AoR :=
  match get_data "reg" aor_id with
  | (StoreStatus.OK, data, cas) => some { deserialize_aor junk data with cas := cas }
  | (StoreStatus.NOT_FOUND, _, _) => some { bindings := [], cas := 0 }
  | _ => none

/-- `RegStore::set_aor_data`: expire old bindings, serialize, and write
through `set_data("reg", aor_id, data, cas, max_expires - now)`; returns
whether the store reported OK, together with the mutated AoR (the C++
mutates `aor_data` in place). -/
def set_aor_data (set_data : String → String → List Nat → Nat → Int → StoreStatus)
    (aor_id : String) (aor_data : AoR) (now : Int) : Bool × AoR :=
  let r := expire_bindings aor_data now
  let data := serialize_aor r.1
  let status := set_data "reg" aor_id data r.1.cas (r.2 - now)
  (status = StoreStatus.OK, r.1)

/-- pjsip message type (`PJSIP_REQUEST_MSG` / `PJSIP_RESPONSE_MSG`). -/
inductive MsgType
  | REQUEST
  | RESPONSE
deriving DecidableEq, Repr

/-- pjsip method identifiers (`pjsip_method_e`); only `ACK` is inspected
by the dispatcher. -/
inductive MethodId
  | INVITE
  | CANCEL
  | ACK
  | BYE
  | REGISTER
  | OPTIONS
  | OTHER
deriving DecidableEq, Repr

/-- The facts about a received `pjsip_rx_data` that the dispatcher code
inspects: message type, request method, and the SAS trail id. -/
structure RxData where
  msgType : MsgType
  method : MethodId
  trail : Nat
deriving DecidableEq, Repr

/-- Outcome of the worker thread's exception barrier (the `CW_EXCEPT`
block of `worker_thread` in `thread_dispatcher.cpp`): the stateless
response sent, as (status code, Retry-After seconds), and whether the
process exits. -/
structure ExcOutcome where
  response : Option (Nat × Nat)
  exitProcess : Bool
deriving DecidableEq, Repr

/-- The `CW_EXCEPT` block of `worker_thread`: when downstream processing
of a dequeued message throws, send a stateless 500 with Retry-After 600
if the message is a non-ACK request, then exit when the pool has exactly
one worker thread. -/
def worker_exception_barrier (rdata : RxData) (num_worker_threads : Nat) : ExcOutcome :=
  { response :=
      if rdata.msgType = MsgType.REQUEST ∧ rdata.method ≠ MethodId.ACK
      then some (500, 600) else none,
    exitProcess := num_worker_threads = 1 }

/-- Observable actions of `threads_on_rx_msg`, in program order. -/
inductive DispatchAction
  | sasReportEvent (trail : Nat)
  | abortProcess
  | startStopwatch
  | cloneMessage
  | setTrailOnClone (trail : Nat)
  | sampleQueueSize
  | pushEvent
deriving DecidableEq, Repr

/-- The receive hook `threads_on_rx_msg`: SAS-log the start of processing,
abort if the queue is deadlocked, start the stopwatch, clone the message
(dropping it and returning PJ_TRUE when the clone fails), copy the trail
onto the clone, sample the queue depth and push the event, returning
PJ_TRUE ("absorbed").  The result is the action trace plus the returned
`pj_bool_t` (`none` when the process aborted instead of returning). -/
def threads_on_rx_msg (deadlocked : Bool) (cloneOk : Bool) (rdata : RxData) :
    List DispatchAction × Option Bool :=
  if deadlocked then
    ([DispatchAction.sasReportEvent rdata.trail, DispatchAction.abortProcess], none)
  else if !cloneOk then
    ([DispatchAction.sasReportEvent rdata.trail, DispatchAction.startStopwatch,
      DispatchAction.cloneMessage], some true)
  else
    ([DispatchAction.sasReportEvent rdata.trail, DispatchAction.startStopwatch,
      DispatchAction.cloneMessage, DispatchAction.setTrailOnClone rdata.trail,
      DispatchAction.sampleQueueSize, DispatchAction.pushEvent], some true)

/-- Deadlock detection threshold for the message queue, in milliseconds
(`MSG_Q_DEADLOCK_TIME` in `thread_dispatcher.cpp`). -/
def MSG_Q_DEADLOCK_TIME : Nat := 4000

/-- The queue configuration installed by `init_thread_dispatcher`, which
calls `event_q.set_deadlock_threshold(MSG_Q_DEADLOCK_TIME)`. -/
structure QueueConfig where
  deadlock_threshold_ms : Nat
deriving DecidableEq, Repr

/-- The queue configuration `init_thread_dispatcher` leaves in place. -/
def init_thread_dispatcher_queue_config : QueueConfig :=
  { deadlock_threshold_ms := MSG_Q_DEADLOCK_TIME }

/-- Modelled from the spec: the implementation of response consolidation
for the service transaction context is not under `src/` (`appserver.h`
only declares `on_response`); the class ranking follows the spec's
best-response rule "6xx > 2xx > 3xx > 4xx > 5xx" for non-2xx final
consolidation.  Larger rank is higher priority. -/
def classRank (code : Nat) : Nat :=
  if code / 100 = 6 then 5
  else if code / 100 = 2 then 4
  else if code / 100 = 3 then 3
  else if code / 100 = 4 then 2
  else if code / 100 = 5 then 1
  else 0

/-- Modelled from the spec: response `r` is strictly preferred to `s` when
its class ranks higher, or within the same class when its code is
numerically lower. -/
def betterResponse (r s : Nat) : Bool :=
  decide (classRank s < classRank r) ||
  (decide (classRank r = classRank s) && decide (r < s))

/-- A final response arriving from a fork: (status code, arrival tag).
The tag distinguishes physically different responses with equal codes. -/
abbrev FinalResp := Nat × Nat

/-- Modelled from the spec: the remembered best response is replaced only
by a strictly better one, so within a class the numerically lowest code
wins and within a code the first-arrived response wins. -/
def rememberBest (best : Option FinalResp) (r : FinalResp) : Option FinalResp :=
  match best with
  | none => some r
  | some b => if betterResponse r.1 b.1 then some r else some b

/-- The best response remembered after a sequence of final responses. -/
def bestOf (rs : List FinalResp) : Option FinalResp :=
  rs.foldl rememberBest none

/-- Modelled from the spec: consolidation state of a service transaction
context — the number of forks, the finals received so far, and the
remembered best response. -/
structure ConsolidationState where
  num_forks : Nat
  finals : List FinalResp
  best : Option FinalResp
deriving DecidableEq, Repr

/-- Modelled from the spec: one fork reports a final response; the best
response is updated, and it is forwarded upstream exactly when every fork
has now reported a final response. -/
def on_final_response (st : ConsolidationState) (r : FinalResp) :
    ConsolidationState × Option FinalResp :=
  let st1 := { st with finals := st.finals ++ [r], best := rememberBest st.best r }
  if st1.finals.length = st.num_forks then (st1, st1.best) else (st1, none)

/-- Feed a sequence of final responses through the consolidation state,
collecting everything forwarded upstream. -/
def processFinals (st : ConsolidationState) : List FinalResp → ConsolidationState × List FinalResp
  | [] => (st, [])
  | r :: rest =>
    let s1 := on_final_response st r
    let r2 := processFinals s1.1 rest
    (r2.1, s1.2.toList ++ r2.2)

/-- The initial consolidation state for a context with `n` forks. -/
def initConsolidation (n : Nat) : ConsolidationState :=
  { num_forks := n, finals := [], best := none }

/-- A concrete AoR with one binding, used as the evaluation vehicle for
the serialization claims. -/
def demoAoR : AoR :=
  { bindings := [([97], { uri := [98], cid := [99], cseq := 1, expires := 2, priority := 3,
                          params := [], path_headers := [[112]] })],
    cas := 0 }

/-- The serialization of `demoAoR`; its last byte is the NUL terminator of
the path header string. -/
def demoRecord : List Nat := serialize_aor demoAoR

/-- Side conditions making a binding an image of a real C++ binding for
the round-trip statement: its strings carry no embedded NUL byte (a NUL
would end the `getline` early) and its `int` fields and list lengths fit
in a 32-bit `int` (they always do in C++, where the fields are `int`). -/
def BindingOkP (b : Binding) : Prop :=
  ¬ 0 ∈ b.uri ∧ ¬ 0 ∈ b.cid
  ∧ -2147483648 ≤ b.cseq ∧ b.cseq < 2147483648
  ∧ -2147483648 ≤ b.expires ∧ b.expires < 2147483648
  ∧ -2147483648 ≤ b.priority ∧ b.priority < 2147483648
  ∧ (b.params.length : Int) < 2147483648
  ∧ (∀ p ∈ b.params, ¬ 0 ∈ p.1 ∧ ¬ 0 ∈ p.2)
  ∧ (b.path_headers.length : Int) < 2147483648
  ∧ (∀ s ∈ b.path_headers, ¬ 0 ∈ s)

/-- Side conditions making an AoR an image of a real C++ AoR: the binding
count fits in an `int`, the association list satisfies the `std::map`
representation invariant (keys strictly increasing), and every binding id
is NUL-free with `BindingOkP` contents. -/
def AoROkP (a : AoR) : Prop :=
  (a.bindings.length : Int) < 2147483648
  ∧ a.bindings.Pairwise (fun p q => lexLt p.1 q.1 = true)
  ∧ ∀ p ∈ a.bindings, ¬ 0 ∈ p.1 ∧ BindingOkP p.2

instance decBindingOkP (b : Binding) : Decidable (BindingOkP b) := by
  unfold BindingOkP
  infer_instance

instance decAoROkP (a : AoR) : Decidable (AoROkP a) := by
  unfold AoROkP
  infer_instance

/-- A second concrete AoR, with two bindings, parameters and paths,
exercising the round-trip on a richer value. -/
def demoAoR2 : AoR :=
  { bindings :=
      [([97], { uri := [115, 105, 112], cid := [99, 49], cseq := 7, expires := -2, priority := 0,
                params := [([110], [118]), ([113], [])], path_headers := [] }),
       ([98, 50], { uri := [], cid := [], cseq := -2147483648, expires := 2147483647, priority := -1,
                    params := [], path_headers := [[104, 49], [104, 50]] })],
    cas := 42 }

/-! ### Helper lemmas: expiry, key order, map operations -/

theorem expireLoop_spec (now : Int) (l : List (ByteStr × Binding)) : ∀ (m : Int),
    expireLoop now m l =
      (l.filter (fun p => decide (now < p.2.expires)),
       (l.filter (fun p => decide (now < p.2.expires))).foldl
         (fun acc p => max acc p.2.expires) m) := by
  induction l with
  | nil => intro m; rfl
  | cons p rest ih =>
    intro m
    by_cases h : p.2.expires ≤ now
    · have hd : ¬ (now < p.2.expires) := by omega
      simp [expireLoop, h, hd, ih]
    · have h2 : now < p.2.expires := by omega
      have hm : (if m < p.2.expires then p.2.expires else m) = max m p.2.expires := by
        split <;> omega
      simp [expireLoop, h, h2, ih, hm]

theorem lexLt_irrefl (s : ByteStr) : lexLt s s = false := by
  induction s with
  | nil => rfl
  | cons a as ih => simp [lexLt, ih]

theorem lexLt_asymm : ∀ (a b : ByteStr), lexLt a b = true → lexLt b a = false := by
  intro a
  induction a with
  | nil =>
    intro b h
    cases b with
    | nil => simp [lexLt] at h
    | cons y ys => rfl
  | cons x xs ih =>
    intro b h
    cases b with
    | nil => simp [lexLt] at h
    | cons y ys =>
      simp only [lexLt] at h ⊢
      rcases lt_trichotomy x y with hlt | heq | hgt
      · have h1 : ¬ y < x := by omega
        simp [hlt, h1]
      · subst heq
        simp only [lt_irrefl, if_false] at h ⊢
        exact ih ys h
      · have h1 : ¬ x < y := by omega
        simp [h1, hgt] at h

theorem lexLt_ne {a b : ByteStr} (h : lexLt a b = true) : a ≠ b := by
  intro heq
  subst heq
  rw [lexLt_irrefl] at h
  cases h

theorem mapFind_none_of_lt (k : ByteStr) (l : List (ByteStr × Binding))
    (h : ∀ p ∈ l, lexLt p.1 k = true) : mapFind k l = none := by
  induction l with
  | nil => rfl
  | cons p rest ih =>
    have hne : p.1 ≠ k := lexLt_ne (h p (List.mem_cons_self p rest))
    simp [mapFind, hne]
    exact ih (fun q hq => h q (List.mem_cons_of_mem p hq))

theorem mapInsert_append_of_lt (k : ByteStr) (v : Binding) (l : List (ByteStr × Binding))
    (h : ∀ p ∈ l, lexLt p.1 k = true) : mapInsert k v l = l ++ [(k, v)] := by
  induction l with
  | nil => rfl
  | cons p rest ih =>
    have h1 : lexLt p.1 k = true := h p (List.mem_cons_self p rest)
    have h2 : lexLt k p.1 = false := lexLt_asymm p.1 k h1
    simp [mapInsert, h1, h2]
    exact ih (fun q hq => h q (List.mem_cons_of_mem p hq))

theorem mapInsert_last_replace (k : ByteStr) (v w : Binding) (l : List (ByteStr × Binding))
    (h : ∀ p ∈ l, lexLt p.1 k = true) :
    mapInsert k v (l ++ [(k, w)]) = l ++ [(k, v)] := by
  induction l with
  | nil => simp [mapInsert, lexLt_irrefl]
  | cons p rest ih =>
    have h1 : lexLt p.1 k = true := h p (List.mem_cons_self p rest)
    have h2 : lexLt k p.1 = false := lexLt_asymm p.1 k h1
    simp only [List.cons_append, mapInsert, h1, h2, Bool.false_eq_true, if_false, if_true,
      List.append_eq]
    rw [ih (fun q hq => h q (List.mem_cons_of_mem p hq))]

theorem mapFind_mapInsert_self (k : ByteStr) (v : Binding) (l : List (ByteStr × Binding)) :
    mapFind k (mapInsert k v l) = some v := by
  induction l with
  | nil => simp [mapInsert, mapFind]
  | cons p rest ih =>
    by_cases h1 : lexLt k p.1 = true
    · simp [mapInsert, h1, mapFind]
    · by_cases h2 : lexLt p.1 k = true
      · have hne : p.1 ≠ k := lexLt_ne h2
        simp [mapInsert, h1, h2, mapFind, hne, ih]
      · simp [mapInsert, h1, h2, mapFind]

/-! ### Helper lemmas: the binary format round-trip -/

theorem bytesToInt_intToBytes (i : Int) (h1 : -2147483648 ≤ i) (h2 : i < 2147483648) :
    bytesToInt (intToBytes i) = i := by
  simp only [intToBytes, bytesToInt]
  split <;> omega

theorem intToBytes_length (i : Int) : (intToBytes i).length = 4 := rfl

theorem inRead4_exact (i : Int) (rest : List Nat) (old : Int)
    (h1 : -2147483648 ≤ i) (h2 : i < 2147483648) :
    inRead4 { data := intToBytes i ++ rest, ok := true } old = (i, { data := rest, ok := true }) := by
  have hlen : 4 ≤ (intToBytes i ++ rest).length := by
    rw [List.length_append, intToBytes_length]
    omega
  simp only [inRead4, if_true, hlen, List.take_left' (intToBytes_length i),
    List.drop_left' (intToBytes_length i), bytesToInt_intToBytes i h1 h2, if_pos]

theorem splitAtNul_append (s rest : List Nat) (h : ¬ 0 ∈ s) :
    splitAtNul (s ++ 0 :: rest) = some (s, rest) := by
  induction s with
  | nil => rfl
  | cons a as ih =>
    have ha : ¬ a = 0 := fun hc => h (by simp [hc])
    have has : ¬ 0 ∈ as := fun hc => h (List.mem_cons_of_mem a hc)
    simp [splitAtNul, ha, ih has]

theorem inGetline_exact (s rest : List Nat) (old : ByteStr) (h : ¬ 0 ∈ s) :
    inGetline { data := s ++ 0 :: rest, ok := true } old = (s, { data := rest, ok := true }) := by
  simp [inGetline, splitAtNul_append s rest h]

theorem listResize_nil (n : Nat) (d : α) : listResize ([] : List α) n d = List.replicate n d := by
  cases n with
  | zero => rfl
  | succ m => simp [listResize]

theorem readParamsLoop_exact (ps : List (ByteStr × ByteStr)) :
    ∀ (rest : List Nat), (∀ p ∈ ps, ¬ 0 ∈ p.1 ∧ ¬ 0 ∈ p.2) →
    readParamsLoop (List.replicate ps.length ([], [])) { data := serializeParams ps ++ rest, ok := true } =
      (ps, { data := rest, ok := true }) := by
  induction ps with
  | nil => intro rest _; simp [readParamsLoop, serializeParams]
  | cons p ps ih =>
    intro rest h
    obtain ⟨h1, h2⟩ := h p (List.mem_cons_self p ps)
    have hs : serializeParams (p :: ps) ++ rest =
        p.1 ++ 0 :: (p.2 ++ 0 :: (serializeParams ps ++ rest)) := by
      simp [serializeParams]
    rw [List.length_cons, List.replicate_succ]
    simp only [readParamsLoop, hs]
    rw [inGetline_exact _ _ _ h1]
    simp only []
    rw [inGetline_exact _ _ _ h2]
    simp only []
    rw [ih rest (fun q hq => h q (List.mem_cons_of_mem p hq))]

theorem readPathsLoop_exact (ls : List ByteStr) :
    ∀ (rest : List Nat), (∀ s ∈ ls, ¬ 0 ∈ s) →
    readPathsLoop (List.replicate ls.length []) { data := serializePaths ls ++ rest, ok := true } =
      (ls, { data := rest, ok := true }) := by
  induction ls with
  | nil => intro rest _; simp [readPathsLoop, serializePaths]
  | cons p ps ih =>
    intro rest h
    have h1 := h p (List.mem_cons_self p ps)
    have hs : serializePaths (p :: ps) ++ rest = p ++ 0 :: (serializePaths ps ++ rest) := by
      simp [serializePaths]
    rw [List.length_cons, List.replicate_succ]
    simp only [readPathsLoop, hs]
    rw [inGetline_exact _ _ _ h1]
    simp only []
    rw [ih rest (fun q hq => h q (List.mem_cons_of_mem p hq))]

theorem deserializeBindingInto_exact (junk : Int) (b : Binding) (rest : List Nat)
    (h : BindingOkP b) :
    deserializeBindingInto junk emptyBinding { data := serializeBindingBody b ++ rest, ok := true } =
      (b, { data := rest, ok := true }) := by
  obtain ⟨h1, h2, h3, h4, h5, h6, h7, h8, h9, h10, h11, h12⟩ := h
  obtain ⟨u, c, q, e, pr, ps, ph⟩ := b
  dsimp only at h1 h2 h3 h4 h5 h6 h7 h8 h9 h10 h11 h12
  have hstream : serializeBindingBody ⟨u, c, q, e, pr, ps, ph⟩ ++ rest =
      u ++ 0 :: (c ++ 0 :: (intToBytes q ++ (intToBytes e ++ (intToBytes pr ++
        (intToBytes (ps.length : Int) ++ (serializeParams ps ++
          (intToBytes (ph.length : Int) ++ (serializePaths ph ++ rest)))))))) := by
    simp [serializeBindingBody, List.append_assoc]
  simp only [deserializeBindingInto, hstream]
  rw [inGetline_exact _ _ _ h1]
  dsimp only
  rw [inGetline_exact _ _ _ h2]
  dsimp only
  rw [inRead4_exact _ _ _ h3 h4]
  dsimp only
  rw [inRead4_exact _ _ _ h5 h6]
  dsimp only
  rw [inRead4_exact _ _ _ h7 h8]
  dsimp only
  rw [inRead4_exact _ _ _ (by omega) h9]
  dsimp only [emptyBinding]
  rw [Int.toNat_natCast, listResize_nil]
  rw [readParamsLoop_exact ps _ h10]
  dsimp only
  rw [inRead4_exact _ _ _ (by omega) h11]
  dsimp only
  rw [Int.toNat_natCast, listResize_nil]
  rw [readPathsLoop_exact ph _ h12]

theorem deserLoop_exact (junk : Int) (l : List (ByteStr × Binding)) :
    ∀ (acc : List (ByteStr × Binding)) (c : Nat) (rest : List Nat),
    (∀ p ∈ l, ¬ 0 ∈ p.1 ∧ BindingOkP p.2) →
    l.Pairwise (fun p q => lexLt p.1 q.1 = true) →
    (∀ p ∈ acc, ∀ q ∈ l, lexLt p.1 q.1 = true) →
    deserLoop junk l.length { data := (l.map entryBytes).flatten ++ rest, ok := true }
        { bindings := acc, cas := c } =
      { bindings := acc ++ l, cas := c } := by
  induction l with
  | nil => intro acc c rest _ _ _; simp [deserLoop]
  | cons p l ih =>
    intro acc c rest hok hsort hacc
    obtain ⟨hid, hbod⟩ := hok p (List.mem_cons_self p l)
    have hsorted_head : ∀ q ∈ l, lexLt p.1 q.1 = true := (List.pairwise_cons.mp hsort).1
    have hacc_head : ∀ x ∈ acc, lexLt x.1 p.1 = true :=
      fun x hx => hacc x hx p (List.mem_cons_self p l)
    have hstream : (((p :: l).map entryBytes).flatten : List Nat) ++ rest =
        p.1 ++ 0 :: (serializeBindingBody p.2 ++ ((l.map entryBytes).flatten ++ rest)) := by
      simp [entryBytes, List.append_assoc]
    rw [List.length_cons]
    simp only [deserLoop, hstream]
    rw [inGetline_exact _ _ _ hid]
    dsimp only
    have hfind : mapFind p.1 acc = none := mapFind_none_of_lt p.1 acc hacc_head
    simp only [AoR.get_binding, hfind]
    rw [mapInsert_append_of_lt p.1 emptyBinding acc hacc_head]
    rw [deserializeBindingInto_exact junk p.2 _ hbod]
    dsimp only
    rw [mapInsert_last_replace p.1 _ emptyBinding acc hacc_head]
    have hacc' : ∀ x ∈ acc ++ [p], ∀ q ∈ l, lexLt x.1 q.1 = true := by
      intro x hx q hq
      rcases List.mem_append.mp hx with hx | hx
      · exact hacc x hx q (List.mem_cons_of_mem p hq)
      · simp only [List.mem_singleton] at hx
        subst hx
        exact hsorted_head q hq
    rw [ih (acc ++ [p]) c rest (fun q hq => hok q (List.mem_cons_of_mem p hq))
      (List.pairwise_cons.mp hsort).2 hacc']
    simp

theorem serialize_roundtrip_main (junk : Int) (a : AoR) (h : AoROkP a) :
    deserialize_aor junk (serialize_aor a) = { bindings := a.bindings, cas := 0 } := by
  obtain ⟨hlen, hsort, hok⟩ := h
  have hnn : (-2147483648 : Int) ≤ (a.bindings.length : Int) := by omega
  simp only [deserialize_aor, serialize_aor]
  rw [inRead4_exact _ _ _ hnn hlen]
  dsimp only
  rw [Int.toNat_natCast]
  have := deserLoop_exact junk a.bindings [] 0 [] hok hsort (by intro p hp; cases hp)
  rw [List.append_nil] at this
  rw [this]
  simp

/-! ### Helper lemmas: best-response consolidation -/

theorem betterResponse_irrefl (r : Nat) : betterResponse r r = false := by
  simp [betterResponse]

theorem betterResponse_trans {x y z : Nat} (hxy : betterResponse x y = true)
    (hyz : betterResponse y z = true) : betterResponse x z = true := by
  simp only [betterResponse, Bool.or_eq_true, Bool.and_eq_true, decide_eq_true_eq] at hxy hyz ⊢
  omega

theorem bestOf_go (rs : List FinalResp) :
    ∀ (done : List FinalResp) (b : FinalResp),
    (∀ x ∈ done, betterResponse x.1 b.1 = false) →
    (∃ l1 l2, done = l1 ++ b :: l2 ∧ ∀ x ∈ l1, x.1 ≠ b.1) →
    ∃ b', rs.foldl rememberBest (some b) = some b'
      ∧ (∀ x ∈ done ++ rs, betterResponse x.1 b'.1 = false)
      ∧ ∃ l1 l2, done ++ rs = l1 ++ b' :: l2 ∧ ∀ x ∈ l1, x.1 ≠ b'.1 := by
  induction rs with
  | nil =>
    intro done b hmax hsplit
    exact ⟨b, rfl, by simpa using hmax, by simpa using hsplit⟩
  | cons r rest ih =>
    intro done b hmax hsplit
    by_cases hbr : betterResponse r.1 b.1 = true
    · have hmax' : ∀ x ∈ done ++ [r], betterResponse x.1 r.1 = false := by
        intro x hx
        rcases List.mem_append.mp hx with hx | hx
        · cases hv : betterResponse x.1 r.1 with
          | false => rfl
          | true =>
            have := betterResponse_trans hv hbr
            rw [hmax x hx] at this
            cases this
        · simp only [List.mem_singleton] at hx
          rw [hx]
          exact betterResponse_irrefl r.1
      have hsplit' : ∃ l1 l2, done ++ [r] = l1 ++ r :: l2 ∧ ∀ x ∈ l1, x.1 ≠ r.1 := by
        refine ⟨done, [], by simp, ?_⟩
        intro x hx heq
        have hxb := hmax x hx
        rw [heq, hbr] at hxb
        cases hxb
      obtain ⟨b', hfold, hall, hsp⟩ := ih (done ++ [r]) r hmax' hsplit'
      refine ⟨b', ?_, ?_, ?_⟩
      · simpa [List.foldl_cons, rememberBest, hbr] using hfold
      · intro x hx
        apply hall
        simp only [List.append_assoc, List.singleton_append] at hx ⊢
        exact hx
      · obtain ⟨l1, l2, hsp1, hsp2⟩ := hsp
        refine ⟨l1, l2, ?_, hsp2⟩
        rw [← hsp1]
        simp
    · have hbr' : betterResponse r.1 b.1 = false := by
        cases hv : betterResponse r.1 b.1 with
        | false => rfl
        | true => exact absurd hv hbr
      have hmax' : ∀ x ∈ done ++ [r], betterResponse x.1 b.1 = false := by
        intro x hx
        rcases List.mem_append.mp hx with hx | hx
        · exact hmax x hx
        · simp only [List.mem_singleton] at hx
          subst hx
          exact hbr'
      have hsplit' : ∃ l1 l2, done ++ [r] = l1 ++ b :: l2 ∧ ∀ x ∈ l1, x.1 ≠ b.1 := by
        obtain ⟨l1, l2, hsp1, hsp2⟩ := hsplit
        exact ⟨l1, l2 ++ [r], by rw [hsp1]; simp, hsp2⟩
      obtain ⟨b', hfold, hall, hsp⟩ := ih (done ++ [r]) b hmax' hsplit'
      refine ⟨b', ?_, ?_, ?_⟩
      · simpa [List.foldl_cons, rememberBest, hbr'] using hfold
      · intro x hx
        apply hall
        simp only [List.append_assoc, List.singleton_append] at hx ⊢
        exact hx
      · obtain ⟨l1, l2, hsp1, hsp2⟩ := hsp
        refine ⟨l1, l2, ?_, hsp2⟩
        rw [← hsp1]
        simp

theorem bestOf_spec (rs : List FinalResp) (b : FinalResp) (h : bestOf rs = some b) :
    (∀ x ∈ rs, betterResponse x.1 b.1 = false)
    ∧ ∃ l1 l2, rs = l1 ++ b :: l2 ∧ ∀ x ∈ l1, x.1 ≠ b.1 := by
  cases rs with
  | nil => simp [bestOf] at h
  | cons r rest =>
    obtain ⟨b', hfold, hall, hsp⟩ := bestOf_go rest [r] r
      (by
        intro x hx
        simp only [List.mem_singleton] at hx
        rw [hx]
        exact betterResponse_irrefl r.1)
      ⟨[], [], rfl, by intro x hx; cases hx⟩
    have hfold' : bestOf (r :: rest) = some b' := by
      simpa [bestOf, List.foldl_cons, rememberBest] using hfold
    rw [h] at hfold'
    injection hfold' with hb
    subst hb
    constructor
    · intro x hx
      apply hall
      simpa using hx
    · simpa using hsp

theorem processFinals_cons (st : ConsolidationState) (r : FinalResp) (rest : List FinalResp) :
    processFinals st (r :: rest) =
      ((processFinals (on_final_response st r).1 rest).1,
       (on_final_response st r).2.toList ++ (processFinals (on_final_response st r).1 rest).2) :=
  rfl

theorem on_final_response_not_full (st : ConsolidationState) (r : FinalResp)
    (h : st.finals.length + 1 ≠ st.num_forks) :
    on_final_response st r =
      ({ st with finals := st.finals ++ [r], best := rememberBest st.best r }, none) := by
  simp [on_final_response, h]

theorem on_final_response_full (st : ConsolidationState) (r : FinalResp)
    (h : st.finals.length + 1 = st.num_forks) :
    on_final_response st r =
      ({ st with finals := st.finals ++ [r], best := rememberBest st.best r },
       rememberBest st.best r) := by
  simp [on_final_response, h]

theorem processFinals_under (rs : List FinalResp) :
    ∀ (st : ConsolidationState), st.finals.length + rs.length < st.num_forks →
    (processFinals st rs).2 = [] := by
  induction rs with
  | nil => intro st _; rfl
  | cons r rest ih =>
    intro st h
    simp only [List.length_cons] at h
    have h1 : st.finals.length + 1 ≠ st.num_forks := by omega
    rw [processFinals_cons, on_final_response_not_full st r h1]
    simp only [Option.toList_none, List.nil_append]
    apply ih
    simp only [List.length_append, List.length_cons, List.length_nil]
    omega

theorem processFinals_last (rs : List FinalResp) :
    ∀ (st : ConsolidationState), rs ≠ [] → st.finals.length + rs.length = st.num_forks →
    (processFinals st rs).2 = (rs.foldl rememberBest st.best).toList := by
  induction rs with
  | nil => intro st h _; exact absurd rfl h
  | cons r rest ih =>
    intro st _ hlen
    cases rest with
    | nil =>
      simp only [List.length_cons, List.length_nil] at hlen
      have h1 : st.finals.length + 1 = st.num_forks := by omega
      rw [processFinals_cons, on_final_response_full st r h1]
      simp [processFinals, List.foldl_cons]
    | cons r2 rest2 =>
      simp only [List.length_cons] at hlen
      have h1 : st.finals.length + 1 ≠ st.num_forks := by omega
      rw [processFinals_cons, on_final_response_not_full st r h1]
      simp only [Option.toList_none, List.nil_append, List.foldl_cons]
      apply ih
      · intro hc
        cases hc
      · simp only [List.length_append, List.length_cons, List.length_nil]
        omega

/-! ### Claim theorems -/

/-- Claim C1: for every AoR and every `now` at which `set_aor_data` runs,
exactly the bindings with `expires <= now` are removed before writing, so
every binding in the written post-image has `expires > now`; the TTL
passed to the store's `set` is `max(now, max expires over remaining
bindings) - now`, which is 0 when no bindings remain.  The last conjunct
observes the TTL through a store that accepts only that value. -/
theorem expire_bindings_spec (a : AoR) (now : Int) :
    (expire_bindings a now).1.bindings =
      a.bindings.filter (fun p => decide (now < p.2.expires))
  ∧ (∀ p ∈ (expire_bindings a now).1.bindings, now < p.2.expires)
  ∧ (expire_bindings a now).2 =
      (expire_bindings a now).1.bindings.foldl (fun acc p => max acc p.2.expires) now
  ∧ ((expire_bindings a now).1.bindings = [] → (expire_bindings a now).2 - now = 0)
  ∧ (∀ (set_data : String → String → List Nat → Nat → Int → StoreStatus) (aor_id : String),
       (set_aor_data set_data aor_id a now).2 = (expire_bindings a now).1)
  ∧ (∀ (aor_id : String),
       (set_aor_data
         (fun _ _ _ _ ttl => if ttl = (expire_bindings a now).2 - now
                             then StoreStatus.OK else StoreStatus.ERROR)
         aor_id a now).1 = true) := by
  have key := expireLoop_spec now a.bindings now
  refine ⟨?_, ?_, ?_, ?_, ?_, ?_⟩
  · simp [expire_bindings, key]
  · intro p hp
    simp only [expire_bindings, key] at hp
    have := List.of_mem_filter hp
    simpa using this
  · simp [expire_bindings, key]
  · intro hnil
    simp only [expire_bindings, key] at hnil ⊢
    rw [hnil]
    simp
  · intro set_data aor_id
    simp [set_aor_data]
  · intro aor_id
    simp [set_aor_data]

/-- Witness for C1 at a concrete AoR and time: at `now = 5` the only
binding of `demoAoR` (expiry 2) is expired away, so the TTL is 0. -/
theorem expire_bindings_spec_witness :
    (expire_bindings demoAoR 5).2 - 5 = 0 :=
  (expire_bindings_spec demoAoR 5).2.2.2.1 (by decide)

/-- Claim C2 (amended): serialize-then-deserialize restores exactly the
bindings of any AoR satisfying the C++ representation conditions
(`AoROkP`: NUL-free strings, int32-range fields, sorted distinct ids);
the result equals the original AoR with its CAS token reset to 0, because
the CAS is not serialized. -/
theorem serialize_deserialize_roundtrip (junk : Int) (a : AoR) (h : AoROkP a) :
    (deserialize_aor junk (serialize_aor a)).bindings = a.bindings
  ∧ deserialize_aor junk (serialize_aor a) = { a with cas := 0 } := by
  have hm := serialize_roundtrip_main junk a h
  exact ⟨by rw [hm], by rw [hm]⟩

/-- Counterexample to C2 as stated: round-trip is not the identity on AoR
values, because the CAS token is not serialized; an empty AoR with CAS 5
comes back with CAS 0. -/
theorem serialize_roundtrip_cas_cex :
    deserialize_aor 0 (serialize_aor { bindings := [], cas := 5 }) ≠
      ({ bindings := [], cas := 5 } : AoR) := by decide

/-- Witness for C2 on a two-binding AoR with parameters, paths and
extreme int32 values. -/
theorem serialize_deserialize_roundtrip_witness :
    deserialize_aor 3 (serialize_aor demoAoR2) = { demoAoR2 with cas := 0 } :=
  (serialize_deserialize_roundtrip 3 demoAoR2 (by decide)).2

/-- Claim C3: `get_aor_data` returns the deserialized AoR stamped with the
store's CAS on OK, a fresh empty AoR with CAS 0 on NOT_FOUND, and the
null sentinel on ERROR. -/
theorem get_aor_data_spec (junk : Int)
    (get_data : String → String → StoreStatus × List Nat × Nat) (aor_id : String) :
    (∀ d c, get_data "reg" aor_id = (StoreStatus.OK, d, c) →
       get_aor_data junk get_data aor_id = some { deserialize_aor junk d with cas := c })
  ∧ (∀ d c, get_data "reg" aor_id = (StoreStatus.NOT_FOUND, d, c) →
       get_aor_data junk get_data aor_id = some { bindings := [], cas := 0 })
  ∧ (∀ d c, get_data "reg" aor_id = (StoreStatus.ERROR, d, c) →
       get_aor_data junk get_data aor_id = none) := by
  refine ⟨?_, ?_, ?_⟩ <;> intro d c h <;> simp [get_aor_data, h]

/-- Witness for C3: a store answering NOT_FOUND yields the fresh empty
AoR with CAS 0. -/
theorem get_aor_data_spec_witness :
    get_aor_data 0 (fun _ _ => (StoreStatus.NOT_FOUND, [], 0)) "sip:user" =
      some { bindings := [], cas := 0 } :=
  (get_aor_data_spec 0 (fun _ _ => (StoreStatus.NOT_FOUND, [], 0)) "sip:user").2.1 [] 0 rfl

/-- Claim C4 (amended): the deserializer accepts every value produced by
the serializer, but it performs no truncation checking whatsoever: there
are truncated records it parses to the very same AoR as the complete
record (here, `demoRecord` missing its final NUL terminator). -/
theorem deserialize_accepts_writer_and_truncated (junk : Int) (a : AoR) (h : AoROkP a) :
    deserialize_aor junk (serialize_aor a) = { a with cas := 0 }
  ∧ deserialize_aor 0 demoRecord.dropLast = deserialize_aor 0 demoRecord
  ∧ demoRecord.dropLast.length + 1 = demoRecord.length := by
  refine ⟨?_, by decide, by decide⟩
  exact serialize_roundtrip_main junk a h

/-- Counterexample to C4 as stated: a proper prefix of the serialization
of a one-binding AoR (the record without its last byte) is accepted by
`deserialize_aor`, which returns exactly the well-formed record's AoR
with no error indication. -/
theorem deserialize_truncated_cex :
    demoRecord.dropLast.length < demoRecord.length
  ∧ deserialize_aor 0 demoRecord.dropLast = demoAoR
  ∧ demoAoR.bindings.length = 1 := by decide

/-- Witness for C4's acceptance half at a concrete record. -/
theorem deserialize_accepts_writer_witness :
    deserialize_aor 0 (serialize_aor demoAoR) = { demoAoR with cas := 0 } :=
  (deserialize_accepts_writer_and_truncated 0 demoAoR (by decide)).1

/-- Claim C5: when downstream processing of a dequeued message crashes,
the worker's exception barrier sends a stateless 500 with Retry-After 600
iff the message was a non-ACK request, and the process exits iff the pool
has exactly one worker thread (otherwise the worker continues). -/
theorem worker_exception_spec (rdata : RxData) (n : Nat) :
    (rdata.msgType = MsgType.REQUEST → rdata.method ≠ MethodId.ACK →
       (worker_exception_barrier rdata n).response = some (500, 600))
  ∧ ((rdata.msgType = MsgType.RESPONSE ∨ rdata.method = MethodId.ACK) →
       (worker_exception_barrier rdata n).response = none)
  ∧ (n = 1 → (worker_exception_barrier rdata n).exitProcess = true)
  ∧ (n ≠ 1 → (worker_exception_barrier rdata n).exitProcess = false) := by
  refine ⟨?_, ?_, ?_, ?_⟩
  · intro h1 h2
    simp [worker_exception_barrier, h1, h2]
  · intro h
    rcases h with h | h
    · have hne : rdata.msgType ≠ MsgType.REQUEST := by
        rw [h]
        intro hc
        cases hc
      simp [worker_exception_barrier, hne]
    · simp [worker_exception_barrier, h]
  · intro h
    simp [worker_exception_barrier, h]
  · intro h
    simp [worker_exception_barrier, h]

/-- Witness for C5: a crashed INVITE request on a single-worker pool gets
the 500 with Retry-After 600 and the process exits. -/
theorem worker_exception_spec_witness :
    (worker_exception_barrier
        { msgType := MsgType.REQUEST, method := MethodId.INVITE, trail := 0 } 1).response =
      some (500, 600)
  ∧ (worker_exception_barrier
        { msgType := MsgType.REQUEST, method := MethodId.INVITE, trail := 0 } 1).exitProcess =
      true :=
  ⟨(worker_exception_spec { msgType := MsgType.REQUEST, method := MethodId.INVITE, trail := 0 } 1).1
      rfl (by intro h; cases h),
   (worker_exception_spec { msgType := MsgType.REQUEST, method := MethodId.INVITE, trail := 0 } 1).2.2.1
      rfl⟩

/-- Claim C6: on receive, the dispatcher checks `is_deadlocked` before
enqueueing; when deadlocked, the process aborts after the SAS event, the
message is never cloned or enqueued and nothing is returned; the deadlock
threshold configured on the queue at init is 4000 milliseconds. -/
theorem deadlock_check_spec (cloneOk : Bool) (rdata : RxData) :
    (threads_on_rx_msg true cloneOk rdata).1 =
      [DispatchAction.sasReportEvent rdata.trail, DispatchAction.abortProcess]
  ∧ (threads_on_rx_msg true cloneOk rdata).2 = none
  ∧ DispatchAction.cloneMessage ∉ (threads_on_rx_msg true cloneOk rdata).1
  ∧ DispatchAction.pushEvent ∉ (threads_on_rx_msg true cloneOk rdata).1
  ∧ init_thread_dispatcher_queue_config.deadlock_threshold_ms = 4000
  ∧ MSG_Q_DEADLOCK_TIME = 4000 := by
  simp [threads_on_rx_msg, init_thread_dispatcher_queue_config, MSG_Q_DEADLOCK_TIME]

/-- Witness for C6: concrete deadlocked receive never pushes. -/
theorem deadlock_check_spec_witness :
    DispatchAction.pushEvent ∉
      (threads_on_rx_msg true true
        { msgType := MsgType.REQUEST, method := MethodId.OTHER, trail := 7 }).1 :=
  (deadlock_check_spec true
    { msgType := MsgType.REQUEST, method := MethodId.OTHER, trail := 7 }).2.2.2.1

/-- Claim C8: on every path through the receive hook a trail-tagged SAS
event is the first observable action, before any drop can occur; in the
clone-failure path the hook still returns PJ_TRUE (absorbed) and nothing
is enqueued. -/
theorem rx_hook_sas_spec (deadlocked cloneOk : Bool) (rdata : RxData) :
    (threads_on_rx_msg deadlocked cloneOk rdata).1.head? =
      some (DispatchAction.sasReportEvent rdata.trail)
  ∧ (deadlocked = false → cloneOk = false →
       (threads_on_rx_msg deadlocked cloneOk rdata).2 = some true
       ∧ DispatchAction.pushEvent ∉ (threads_on_rx_msg deadlocked cloneOk rdata).1) := by
  cases deadlocked <;> cases cloneOk <;> simp [threads_on_rx_msg]

/-- Witness for C8: concrete clone-failure path returns PJ_TRUE. -/
theorem rx_hook_sas_spec_witness :
    (threads_on_rx_msg false false
      { msgType := MsgType.REQUEST, method := MethodId.OTHER, trail := 3 }).2 = some true :=
  ((rx_hook_sas_spec false false
      { msgType := MsgType.REQUEST, method := MethodId.OTHER, trail := 3 }).2 rfl rfl).1

/-- Claim C9 (implicit): `AoR::get_binding` returns the stored binding
when present (without changing the AoR), otherwise inserts a completely
empty binding; afterwards the id is always present, and an immediately
repeated call returns the same binding without changing the AoR. -/
theorem get_binding_spec (a : AoR) (bid : ByteStr) :
    (∀ b, mapFind bid a.bindings = some b → a.get_binding bid = (b, a))
  ∧ (mapFind bid a.bindings = none →
       a.get_binding bid =
         (emptyBinding, { a with bindings := mapInsert bid emptyBinding a.bindings }))
  ∧ mapFind bid (a.get_binding bid).2.bindings = some (a.get_binding bid).1
  ∧ (a.get_binding bid).2.get_binding bid = ((a.get_binding bid).1, (a.get_binding bid).2) := by
  rcases h : mapFind bid a.bindings with _ | b
  · refine ⟨?_, ?_, ?_, ?_⟩
    · intro b hb
      exact Option.noConfusion hb
    · intro _
      simp [AoR.get_binding, h]
    · simp [AoR.get_binding, h, mapFind_mapInsert_self]
    · simp [AoR.get_binding, h, mapFind_mapInsert_self]
  · refine ⟨?_, ?_, ?_, ?_⟩
    · intro b' hb
      injection hb with hb
      rw [← hb]
      simp [AoR.get_binding, h]
    · intro hc
      exact Option.noConfusion hc
    · simp [AoR.get_binding, h]
    · simp [AoR.get_binding, h]

/-- Witness for C9: a fresh id is inserted as a completely empty binding. -/
theorem get_binding_spec_witness :
    demoAoR.get_binding [122] =
      (emptyBinding, { demoAoR with bindings := mapInsert [122] emptyBinding demoAoR.bindings }) :=
  (get_binding_spec demoAoR [122]).2.1 (by decide)

/-- Claim C10 (implicit): `set_aor_data` returns true iff the store's
`set` returns OK; both CAS contention and store error yield false, so the
caller cannot distinguish them through this interface. -/
theorem set_aor_data_ok_iff
    (set_data : String → String → List Nat → Nat → Int → StoreStatus)
    (aor_id : String) (a : AoR) (now : Int) :
    ((set_aor_data set_data aor_id a now).1 = true ↔
       set_data "reg" aor_id (serialize_aor (expire_bindings a now).1)
         (expire_bindings a now).1.cas ((expire_bindings a now).2 - now) = StoreStatus.OK)
  ∧ (∀ s, s ≠ StoreStatus.OK →
       (set_aor_data (fun _ _ _ _ _ => s) aor_id a now).1 = false)
  ∧ (set_aor_data (fun _ _ _ _ _ => StoreStatus.DATA_CONTENTION) aor_id a now).1 = false
  ∧ (set_aor_data (fun _ _ _ _ _ => StoreStatus.ERROR) aor_id a now).1 = false := by
  refine ⟨?_, ?_, ?_, ?_⟩
  · simp [set_aor_data]
  · intro s hs
    simp [set_aor_data, hs]
  · simp [set_aor_data]
  · simp [set_aor_data]

/-- Witness for C10: a store reporting CAS contention makes
`set_aor_data` return false. -/
theorem set_aor_data_ok_iff_witness :
    (set_aor_data (fun _ _ _ _ _ => StoreStatus.DATA_CONTENTION) "sip:a" demoAoR 0).1 = false :=
  (set_aor_data_ok_iff (fun _ _ _ _ _ => StoreStatus.DATA_CONTENTION) "sip:a" demoAoR 0).2.1
    StoreStatus.DATA_CONTENTION (by intro h; cases h)

theorem foldl_rememberBest_some (rest : List FinalResp) :
    ∀ (b : FinalResp), ∃ b', rest.foldl rememberBest (some b) = some b' := by
  induction rest with
  | nil => intro b; exact ⟨b, rfl⟩
  | cons r rest ih =>
    intro b
    simp only [List.foldl_cons, rememberBest]
    split
    · exact ih r
    · exact ih b

/-- Claim C7 (spec-modelled): for a context consolidating non-2xx finals
across forks, nothing is forwarded before every fork has reported a final
response; once all have, the single forwarded response is the remembered
best: no arrived response is strictly better under the class ordering
6xx > 2xx > 3xx > 4xx > 5xx with lowest-code-in-class preference, and no
response with the same code arrived earlier (first-arrived wins). -/
theorem best_response_consolidation (n : Nat) (rs : List FinalResp) :
    (rs.length < n → (processFinals (initConsolidation n) rs).2 = [])
  ∧ (rs ≠ [] → rs.length = n →
       ∃ b, bestOf rs = some b
         ∧ (processFinals (initConsolidation n) rs).2 = [b]
         ∧ (∀ x ∈ rs, betterResponse x.1 b.1 = false)
         ∧ ∃ l1 l2, rs = l1 ++ b :: l2 ∧ ∀ x ∈ l1, x.1 ≠ b.1) := by
  constructor
  · intro h
    apply processFinals_under
    simpa [initConsolidation] using h
  · intro hne hlen
    have hout := processFinals_last rs (initConsolidation n) hne
      (by simpa [initConsolidation] using hlen)
    cases rs with
    | nil => exact absurd rfl hne
    | cons r rest =>
      obtain ⟨b, hb⟩ : ∃ b, bestOf (r :: rest) = some b := by
        have := foldl_rememberBest_some rest r
        simpa [bestOf, List.foldl_cons, rememberBest] using this
      obtain ⟨hmax, hsp⟩ := bestOf_spec (r :: rest) b hb
      refine ⟨b, hb, ?_, hmax, hsp⟩
      rw [hout]
      have : (r :: rest).foldl rememberBest (initConsolidation n).best = some b := by
        simpa [initConsolidation, bestOf] using hb
      rw [this]
      rfl

/-- Witness for C7 on the spec's S4-style scenario: two forks answer 486
and 480; both are 4xx, the numerically lower 480 wins and is forwarded
exactly when the second final arrives. -/
theorem best_response_consolidation_witness :
    (processFinals (initConsolidation 2) [(486, 0), (480, 1)]).2 = [(480, 1)] := by
  obtain ⟨b, hb, hout, -, -⟩ :=
    (best_response_consolidation 2 [(486, 0), (480, 1)]).2 (by decide) (by decide)
  have hbv : bestOf [(486, 0), (480, 1)] = some (480, 1) := by decide
  rw [hbv] at hb
  injection hb with hb2
  rw [← hb2] at hout
  exact hout
